import Mathlib

/-!
A verification development for the lazy, index-addressable content model of
the rtv repository (rtv/content.py).  Python dictionaries with a `type`
discriminator are embedded as tagged records; in-place dictionary mutation is
embedded as explicit state passing; a raised IndexError is embedded as an
`Option`/pair result carrying the post-raise state.  The upstream praw
iterator and the ProgressGuard loader (rtv/objects.py, outside the sources at
hand) are modelled from the specification where noted.
-/

namespace Rtv

/-! ### Text wrapping

`Content.wrap_text` delegates paragraph wrapping to the external
`kitchen.text.display.wrap` collaborator.  Modelled from the spec: the
external wrapper is a deterministic pure function of the paragraph and the
width which returns an empty list on an empty paragraph; we realise it as
plain character chunking, which is all the verified properties observe. -/

/-- Chunk a character list into runs of `w1` characters; `fuel` bounds the
recursion and is always instantiated with the list length. -/
def chunkFuel (w1 : Nat) : Nat → List Char → List (List Char)
  | _, [] => []
  | 0, l => [l]
  | fuel + 1, c :: cs => ((c :: cs).take w1) :: chunkFuel w1 fuel ((c :: cs).drop w1)

/-- Model of the external kitchen wrap: empty paragraph wraps to no lines,
otherwise the paragraph is cut into chunks of at most `max 1 width`
characters. -/
def kitchenWrap (s : String) (width : Int) : List String :=
  if s = "" then []
  else (chunkFuel (max 1 width.toNat) s.length s.data).map (fun l => String.mk l)

/-- Split a character list at every newline character (the pieces do not
contain the separator; a trailing newline yields a trailing empty piece,
exactly as str.split would). -/
def splitNl : List Char → List (List Char)
  | [] => [[]]
  | c :: cs =>
    if c = '\n' then [] :: splitNl cs
    else
      match splitNl cs with
      | [] => [[c]]
      | l :: ls => (c :: l) :: ls

/-- Python str.splitlines for newline-separated text: split on the newline
character and drop the trailing empty piece produced by a final newline. -/
def pySplitlines (s : String) : List String :=
  let l := (splitNl s.data).map (fun cs => String.mk cs)
  if l.getLast? = some "" then l.dropLast else l

/-- Content.wrap_text: wrap each paragraph, substituting a single empty
string when the external wrapper returns no lines for a paragraph. -/
def wrap_text (text : String) (width : Int) : List String :=
  (pySplitlines text).flatMap (fun p =>
    let lines := kitchenWrap p width
    if lines = [] then [""] else lines)

/-! ### The upstream comment tree

A praw comment node is either a `MoreComments` continuation marker (carrying
its declared remaining count and, modelled from the spec, the forest its
guarded `comments(update=True)` fetch would return — `PCOpt.noneF` when that
fetch raises an exception that the ProgressGuard captures) or a regular
comment whose `_replies` field is either unset (`PCOpt.noneF`) or a list of
children.  The mutual list type keeps every function on the tree
structurally recursive. -/

mutual
inductive PComment where
  | more (count : Nat) (fetch : PCOpt)
  | comment (body : String) (replies : PCOpt)
inductive PCOpt where
  | noneF
  | someF (children : PCList)
inductive PCList where
  | nil
  | cons (c : PComment) (tl : PCList)
end

mutual
/-- Node count of a single comment subtree (at least 1). -/
def csize : PComment → Nat
  | .more _ _ => 1
  | .comment _ r => 1 + csizeO r
/-- Node count below an optional reply list. -/
def csizeO : PCOpt → Nat
  | .noneF => 0
  | .someF l => csizeL l
/-- Node count of a reply list. -/
def csizeL : PCList → Nat
  | .nil => 0
  | .cons c tl => csize c + csizeL tl
end

/-- Convert the mutual reply-list representation to an ordinary list. -/
def PCList.toList : PCList → List PComment
  | .nil => []
  | .cons c tl => c :: PCList.toList tl

/-- Build the mutual reply-list representation from an ordinary list. -/
def PCList.ofList : List PComment → PCList
  | [] => .nil
  | c :: tl => .cons c (PCList.ofList tl)

theorem csize_pos (c : PComment) : 0 < csize c := by
  cases c <;> simp [csize]

theorem sum_map_toList : ∀ (l : PCList), (l.toList.map csize).sum = csizeL l
  | .nil => by simp [PCList.toList, csizeL]
  | .cons c tl => by simp [PCList.toList, csizeL, sum_map_toList tl]

/-- Total size of the elements of a traversal work list, used as fuel for
the flattening loop. -/
def stackSize (stack : List (PComment × Nat)) : Nat :=
  (stack.map (fun p => csize p.1)).sum

/-- One step of Content.flatten_comments per popped work-list element, with
explicit fuel (instantiated with `stackSize`, which strictly decreases at
every iteration of the source's while-loop).  `none` embeds the IndexError
raised by `stack.pop(0)` when a comment with an unset reply list is popped
from a work list holding no further element. -/
def flattenFuel : Nat → List (PComment × Nat) → Option (List (PComment × Nat))
  | _, [] => some []
  | 0, _ :: _ => none
  | fuel + 1, (c, lvl) :: rest =>
    match c with
    | .more count f =>
      if count = 0 then flattenFuel fuel rest
      else (flattenFuel fuel rest).map (fun out => (PComment.more count f, lvl) :: out)
    | .comment b .noneF =>
      match rest with
      | [] => none
      | (next, _) :: rest2 =>
        (flattenFuel fuel ((next, lvl + 1) :: rest2)).map
          (fun out => (PComment.comment b (.someF (.cons next .nil)), lvl) :: out)
    | .comment b (.someF rs) =>
      (flattenFuel fuel (rs.toList.map (fun n => (n, lvl + 1)) ++ rest)).map
        (fun out => (PComment.comment b (.someF rs), lvl) :: out)

/-- Content.flatten_comments: seed the work list with the roots at the given
root level and run the traversal loop.  The result pairs every emitted node
with the `nested_level` attribute the loop assigned to it. -/
def flatten_comments (comments : List PComment) (root_level : Nat) :
    Option (List (PComment × Nat)) :=
  flattenFuel (stackSize (comments.map (fun c => (c, root_level))))
    (comments.map (fun c => (c, root_level)))

/-- Modelled from the spec: the children a preorder walk descends into — a
continuation marker has none, an unset reply list contributes none, a set
reply list contributes its elements in order. -/
def specChildren : PComment → List PComment
  | .more _ _ => []
  | .comment _ .noneF => []
  | .comment _ (.someF rs) => rs.toList

theorem sum_specChildren_lt (c : PComment) :
    ((specChildren c).map csize).sum < csize c := by
  cases c with
  | more count f => simp [specChildren, csize]
  | comment b r =>
    cases r with
    | noneF => simp [specChildren, csize]
    | someF rs => simp [specChildren, csize, csizeO, sum_map_toList]

/-- Modelled from the spec: the standard depth-first, left-to-right preorder
flattening of a forest, each node paired with its depth (children one deeper
than their parent, roots at the given level). -/
def specPreorder : List PComment → Nat → List (PComment × Nat)
  | [], _ => []
  | c :: rest, lvl =>
    (c, lvl) :: (specPreorder (specChildren c) (lvl + 1) ++ specPreorder rest lvl)
termination_by l _ => (l.map csize).sum
decreasing_by
  · have h := sum_specChildren_lt c
    simp only [List.map_cons, List.sum_cons]
    omega
  · simp only [List.map_cons, List.sum_cons]
    have := csize_pos c
    omega

/-- Well-formedness of an upstream node as assumed by claim C4: the reply
list of every comment is set and no continuation marker declares a zero
count. -/
inductive WF : PComment → Prop where
  | more : ∀ (k : Nat) (f : PCOpt), 0 < k → WF (.more k f)
  | comment : ∀ (b : String) (rs : PCList),
      (∀ c ∈ rs.toList, WF c) → WF (.comment b (.someF rs))

/-! ### Comment records

`strip_praw_comment` produces dictionaries tagged 'Comment' or
'MoreComments'; `toggle` additionally creates 'HiddenComment' dictionaries.
A record keeps the fields the content layer reads and writes: the tag, the
`level`, the `body`, the optional `count` key (present on continuation
markers and hidden comments, absent on comments — `d.get('count', 1)`
semantics), the hidden `cache` buffer, the wrapped `object` handle, and the
width-derived keys `split_body` / `n_rows` / `offset` which `get` writes in
place (absent, i.e. `none`, until first written).  `rid` is a fresh tag per
created dictionary embedding Python object identity; `get`'s in-place
mutation keeps the `rid` while rewriting width-derived fields.  Fields such
as author, score and timestamp are carried by the `obj` handle and are never
read by a verified property. -/

inductive RType where
  | comment
  | hiddenComment
  | moreComments
deriving DecidableEq

inductive Rec where
  | mk (rid : Nat) (rtype : RType) (level : Nat) (body : String)
       (count : Option Nat) (cache : List Rec) (obj : Option PComment)
       (splitBody : Option (List String)) (nRows : Option Nat)
       (offset : Option Nat)

def Rec.rid : Rec → Nat
  | .mk i _ _ _ _ _ _ _ _ _ => i

def Rec.rtype : Rec → RType
  | .mk _ t _ _ _ _ _ _ _ _ => t

def Rec.level : Rec → Nat
  | .mk _ _ l _ _ _ _ _ _ _ => l

def Rec.body : Rec → String
  | .mk _ _ _ b _ _ _ _ _ _ => b

def Rec.count : Rec → Option Nat
  | .mk _ _ _ _ c _ _ _ _ _ => c

def Rec.cache : Rec → List Rec
  | .mk _ _ _ _ _ ca _ _ _ _ => ca

def Rec.obj : Rec → Option PComment
  | .mk _ _ _ _ _ _ o _ _ _ => o

def Rec.splitBody : Rec → Option (List String)
  | .mk _ _ _ _ _ _ _ sb _ _ => sb

def Rec.nRows : Rec → Option Nat
  | .mk _ _ _ _ _ _ _ _ nr _ => nr

def Rec.offset : Rec → Option Nat
  | .mk _ _ _ _ _ _ _ _ _ off => off

/-- In-place overwrite of the width-derived dictionary keys; every other
key (and the dictionary's identity `rid`) is untouched. -/
def Rec.withWrap : Rec → Option (List String) → Option Nat → Option Nat → Rec
  | .mk i t l b c ca o _ _ _, sb, nr, off => .mk i t l b c ca o sb nr off

/-- The identity-and-payload view of a record: everything except the
width-derived keys that `get` rewrites in place. -/
def Rec.core (r : Rec) : Nat × RType × Nat × String × Option Nat × List Rec :=
  (r.rid, r.rtype, r.level, r.body, r.count, r.cache)

/-- strip_praw_comment on a node carrying `nested_level = lvl`, creating the
dictionary with fresh identity `rid`. -/
def strip_praw_comment (pc : PComment) (lvl : Nat) (rid : Nat) : Rec :=
  match pc with
  | .more count f =>
    .mk rid .moreComments lvl "More comments" (some count) [] (some (.more count f))
      none none none
  | .comment b r =>
    .mk rid .comment lvl b none [] (some (.comment b r)) none none none

/-- Project a flattened (node, nested_level) list to comment records,
numbering identities from `start`. -/
def stripAll : List (PComment × Nat) → Nat → List Rec × Nat
  | [], start => ([], start)
  | (c, lvl) :: rest, start =>
    let (l, nid) := stripAll rest (start + 1)
    (strip_praw_comment c lvl start :: l, nid)

/-- The submission header dictionary (strip_praw_submission), restricted to
the fields the content layer reads back: the title and selftext feed the
width-derived keys that get(-1) writes in place; the remaining display
metadata is never read by a verified property. -/
structure HRec where
  title : String
  text : String
  splitTitle : Option (List String)
  splitText : Option (List String)
  nRows : Option Nat
  offset : Option Nat
deriving DecidableEq

/-- The upstream praw submission handle consumed by SubmissionContent. -/
structure PSubmission where
  title : String
  selftext : String
  permalink : String
  comments : List PComment

/-- SubmissionContent instance state: the option fields of __init__ plus the
header dictionary, the flattened comment dictionaries and the identity
counter for newly created dictionaries. -/
structure SubCon where
  indentSize : Nat
  maxIndentLevel : Nat
  name : String
  order : Option String
  submissionData : HRec
  commentData : List Rec
  nextId : Nat

/-- SubmissionContent.__init__: strip the header, flatten the comment tree
and strip every flattened node.  `none` embeds the IndexError that
flatten_comments may raise; the loader handle is held for toggle and has no
state of its own in this model. -/
def submissionInit (sub : PSubmission) (indent_size max_indent_level : Nat)
    (order : Option String) : Option SubCon :=
  match flatten_comments sub.comments 0 with
  | none => none
  | some flat =>
    let (recs, nid) := stripAll flat 0
    some
      { indentSize := indent_size
        maxIndentLevel := max_indent_level
        name := sub.permalink
        order := order
        submissionData :=
          { title := sub.title, text := sub.selftext, splitTitle := none
            splitText := none, nRows := none, offset := none }
        commentData := recs
        nextId := nid }

/-- A value returned by SubmissionContent.get: either the header dictionary
(tag 'Submission') or a comment-list dictionary. -/
inductive GetRes where
  | header (h : HRec)
  | entry (r : Rec)

/-- The in-place mutation SubmissionContent.get performs on a comment-list
dictionary: indent offset from the capped level, then for a 'Comment' the
wrapped body and its row count, otherwise a single row. -/
def getUpdate (n_cols : Int) (indent_size max_indent_level : Nat) (r : Rec) : Rec :=
  let off := min r.level max_indent_level * indent_size
  match r.rtype with
  | .comment =>
    let sb := wrap_text r.body (n_cols - off)
    r.withWrap (some sb) (some (sb.length + 1)) (some off)
  | _ => r.withWrap r.splitBody (some 1) (some off)

/-- The in-place mutation get(-1) performs on the header dictionary: wrap
the title and the selftext at n_cols - 2 and derive the row count. -/
def hUpdate (n_cols : Int) (d : HRec) : HRec :=
  { d with
    splitTitle := some (wrap_text d.title (n_cols - 2))
    splitText := some (wrap_text d.text (n_cols - 2))
    nRows := some ((wrap_text d.title (n_cols - 2)).length +
      (wrap_text d.text (n_cols - 2)).length + 5)
    offset := some 0 }

/-- SubmissionContent.get: IndexError below -1, the header at -1 (title and
selftext wrapped at n_cols - 2), otherwise the comment dictionary at the
index, mutated in place; IndexError past the end of the list. -/
def subGet (index : Int) (n_cols : Int) (st : SubCon) : Option (GetRes × SubCon) :=
  if index < -1 then none
  else if index = -1 then
    some (.header (hUpdate n_cols st.submissionData),
      { st with submissionData := hUpdate n_cols st.submissionData })
  else
    match st.commentData[index.toNat]? with
    | none => none
    | some r =>
      some (.entry (getUpdate n_cols st.indentSize st.maxIndentLevel r),
        { st with
          commentData := st.commentData.set index.toNat
            (getUpdate n_cols st.indentSize st.maxIndentLevel r) })

/-- Python slice assignment l[i : i + n] = repl for i ≤ len l. -/
def splice {α : Type} (l : List α) (i n : Nat) (repl : List α) : List α :=
  l.take i ++ repl ++ l.drop (i + n)

/-! ### Content.iterate

The generator loop is shared by every content object: break before reading
when the step is negative and the index is already negative, otherwise get
the index (a raised IndexError stops the iteration, keeping the mutations
get performed before raising) and advance by the step.  `fuel` bounds the
loop; `none` means the bound was hit before the loop stopped, so every
`some` result is an exact run of the source loop. -/
def iterAux {σ ρ : Type} (g : Int → Int → σ → Option ρ × σ) :
    Nat → Int → Int → Int → σ → Option (List ρ × σ)
  | 0, _, _, _, _ => none
  | fuel + 1, index, step, n_cols, st =>
    if step < 0 ∧ index < 0 then some ([], st)
    else
      match g index n_cols st with
      | (none, st2) => some ([], st2)
      | (some r, st2) =>
        match iterAux g fuel (index + step) step n_cols st2 with
        | none => none
        | some (l, st3) => some (r :: l, st3)

/-- SubmissionContent.get in the raising-call shape the iterate loop and the
toggle loop consume: a raising get leaves the state as it was. -/
def subGetP (index : Int) (n_cols : Int) (st : SubCon) : Option GetRes × SubCon :=
  match subGet index n_cols st with
  | none => (none, st)
  | some (r, st2) => (some r, st2)

/-- Content.iterate specialised to submission content. -/
def subIterate (fuel : Nat) (index step n_cols : Int) (st : SubCon) :
    Option (List GetRes × SubCon) :=
  iterAux subGetP fuel index step n_cols st

/-- The collection loop of toggle on a 'Comment': `for d in
self.iterate(index + 1, 1, n_cols)` consumed lazily with a break at the
first record whose level does not exceed the collapsed record's level (that
record has already been mutated by its get when the break fires) or at the
IndexError ending the listing.  Returns the collected tail of the hidden
buffer, the continuation-count sum `d.get('count', 1)` of the collected
records, and the state after the loop.  `fuel` bounds the loop and toggle
supplies one more than the length of the comment list, which the loop can
never exhaust. -/
def collectHidden : Nat → Nat → Nat → Int → SubCon → List Rec × Nat × SubCon
  | 0, _, _, _, st => ([], 0, st)
  | fuel + 1, level, index, n_cols, st =>
    match subGet index n_cols st with
    | none => ([], 0, st)
    | some (.header _, st2) => ([], 0, st2)
    | some (.entry d, st2) =>
      if d.level ≤ level then ([], 0, st2)
      else
        let (tl, cnt, st3) := collectHidden fuel level (index + 1) n_cols st2
        (d :: tl, d.count.getD 1 + cnt, st3)

/-- SubmissionContent.toggle.  The initial `self.get(index)` runs at the
default width 70 and mutates the addressed dictionary in place.  A
'Submission' header is left alone; a 'Comment' is packed together with the
immediately following strictly-deeper run into a fresh 'HiddenComment'
spliced over the collected segment; a 'HiddenComment' is replaced by its
buffer; a 'MoreComments' marker is replaced by the stripped flattening of
its guarded fetch, or left in place when the fetch raised an exception the
loader captured (`self._loader.exception` set — loader capture modelled
from the spec).  `none` embeds an uncaught exception (IndexError from get
or from flatten_comments).  The source's ValueError branch for an
unrecognized tag has no counterpart because the record type enumerates
exactly the tags that occur. -/
def toggle (index : Int) (n_cols : Int) (st : SubCon) : Option SubCon :=
  match subGet index 70 st with
  | none => none
  | some (.header _, st1) => some st1
  | some (.entry d, st1) =>
    match d.rtype with
    | .comment =>
      let (tl, cnt, st2) :=
        collectHidden (st1.commentData.length + 1) d.level (index.toNat + 1) n_cols st1
      let cache := d :: tl
      let hid : Rec :=
        .mk st2.nextId .hiddenComment d.level "Hidden" (some (1 + cnt)) cache
          none none none none
      some
        { st2 with
          commentData := splice st2.commentData index.toNat cache.length [hid]
          nextId := st2.nextId + 1 }
    | .hiddenComment =>
      some { st1 with commentData := splice st1.commentData index.toNat 1 d.cache }
    | .moreComments =>
      match d.obj with
      | some (.more _ (.someF forest)) =>
        match flatten_comments forest.toList d.level with
        | none => none
        | some flat =>
          let (recs, nid) := stripAll flat st1.nextId
          some
            { st1 with
              commentData := splice st1.commentData index.toNat 1 recs
              nextId := nid }
      | _ => some st1

/-! ### Paginated listing content

SubredditContent and SubscriptionContent share the lazy backing-store
pattern: `while index >= len(store)` pull the next upstream element inside
the loader scope.  Modelled from the spec: the upstream listing iterator is
a Python generator — `none` items are pulls that raise an exception, and
after raising (or after StopIteration) the generator is closed, every later
next() raising StopIteration without running upstream code; the
ProgressGuard stores an exception raised inside its scope in
`loader.exception` instead of propagating it. -/

structure Gen (α : Type) where
  closed : Bool
  items : List (Option α)
deriving DecidableEq

inductive PullRes (α : Type) where
  | ok (a : α)
  | stop
  | caught

/-- One guarded `next(self._submissions)`: StopIteration on a closed or
exhausted generator, a captured exception closes the generator, a produced
element advances it. -/
def genPull {α : Type} (g : Gen α) : PullRes α × Gen α :=
  if g.closed then (.stop, g)
  else
    match g.items with
    | [] => (.stop, { closed := true, items := [] })
    | none :: rest => (.caught, { closed := true, items := rest })
    | some a :: rest => (.ok a, { closed := false, items := rest })

/-- The construction errors of rtv/exceptions.py raised by the listing
constructors. -/
inductive RtvError where
  | subredditError
  | subscriptionError
deriving DecidableEq

/-- The upstream praw submission handle of a subreddit listing; only the
title is read back by the verified properties, the remaining display
metadata of strip_praw_submission is never consulted again. -/
structure PSub where
  title : String
deriving DecidableEq

/-- A cached subreddit listing dictionary: the strip_praw_submission fields
the content layer reads and writes (`index` and the numbered title are
stamped by get when the element is pulled; the width-derived keys are
rewritten on every get). -/
structure SRec where
  title : String
  index : Option Nat
  splitTitle : Option (List String)
  nRows : Option Nat
  offset : Option Nat
deriving DecidableEq

/-- strip_praw_submission restricted to the read-back fields (`index` is
the None placeholder filled in by the caller). -/
def strip_praw_submission (s : PSub) : SRec :=
  { title := s.title, index := none, splitTitle := none, nRows := none, offset := none }

/-- SubredditContent instance state. -/
structure SubredditSt where
  name : String
  order : Option String
  store : List SRec
  upstream : Gen PSub
deriving DecidableEq

/-- The `while index >= len(store)` loop of SubredditContent.get: pull,
append the stripped element stamped with the requested index and the
1-based title number, or stop with `false` on StopIteration or a
guard-captured exception.  `fuel` is the number of missing elements, so it
runs out exactly when the store has grown past the requested index. -/
def srFill : Nat → Nat → SubredditSt → Bool × SubredditSt
  | 0, index, st => (decide (index < st.store.length), st)
  | fuel + 1, index, st =>
    if index < st.store.length then (true, st)
    else
      match genPull st.upstream with
      | (.ok s, g) =>
        let data := strip_praw_submission s
        let data :=
          { data with
            index := some index
            title := toString (index + 1) ++ ". " ++ data.title }
        srFill fuel index { st with store := st.store ++ [data], upstream := g }
      | (.stop, g) => (false, { st with upstream := g })
      | (.caught, g) => (false, { st with upstream := g })

/-- Fallback element for a store read guarded by the fill loop's success. -/
def dummySRec : SRec :=
  { title := "", index := none, splitTitle := none, nRows := none, offset := none }

/-- The in-place mutation SubredditContent.get performs on the cached
dictionary: wrapped title, its row count plus 3, zero offset. -/
def srUpdate (n_cols : Int) (d : SRec) : SRec :=
  { d with
    splitTitle := some (wrap_text d.title n_cols)
    nRows := some ((wrap_text d.title n_cols).length + 3)
    offset := some 0 }

/-- SubredditContent.get: IndexError on a negative index or when the fill
loop stops early, otherwise the cached dictionary mutated in place with the
width-derived keys. -/
def srGet (index : Int) (n_cols : Int) (st : SubredditSt) : Option SRec × SubredditSt :=
  if index < 0 then (none, st)
  else
    match srFill (index.toNat + 1 - st.store.length) index.toNat st with
    | (false, st2) => (none, st2)
    | (true, st2) =>
      (some (srUpdate n_cols (st2.store.getD index.toNat dummySRec)),
        { st2 with
          store := st2.store.set index.toNat
            (srUpdate n_cols (st2.store.getD index.toNat dummySRec)) })

/-- The SubredditContent state as first assembled by __init__, before the
index-0 probe. -/
def srInitialSt (name : String) (submissions : Gen PSub) (order : Option String) :
    SubredditSt :=
  { name := name, order := order, store := [], upstream := submissions }

/-- SubredditContent.__init__: assemble the state and probe index 0,
translating the probe's IndexError into SubredditError. -/
def subredditInit (name : String) (submissions : Gen PSub) (order : Option String) :
    Except RtvError SubredditSt :=
  match srGet 0 70 (srInitialSt name submissions order) with
  | (none, _) => .error .subredditError
  | (some _, st2) => .ok st2

/-- Content.iterate specialised to subreddit content. -/
def srIterate (fuel : Nat) (index step n_cols : Int) (st : SubredditSt) :
    Option (List SRec × SubredditSt) :=
  iterAux srGet fuel index step n_cols st

/-- The upstream praw subscription handle. -/
structure PSubscr where
  displayName : String
  title : String
deriving DecidableEq

/-- A cached subscription dictionary (strip_praw_subscription fields plus
the width-derived keys get writes). -/
structure ScRec where
  sname : String
  title : String
  splitTitle : Option (List String)
  nRows : Option Nat
  offset : Option Nat
deriving DecidableEq

/-- strip_praw_subscription. -/
def strip_praw_subscription (s : PSubscr) : ScRec :=
  { sname := "/r/" ++ s.displayName, title := s.title
    splitTitle := none, nRows := none, offset := none }

/-- SubscriptionContent instance state (name and order are the constants
"Subscriptions" and None in the source and carry no information here). -/
structure SubscriptionSt where
  store : List ScRec
  upstream : Gen PSubscr
deriving DecidableEq

/-- The fill loop of SubscriptionContent.get (no index or title stamping). -/
def scFill : Nat → Nat → SubscriptionSt → Bool × SubscriptionSt
  | 0, index, st => (decide (index < st.store.length), st)
  | fuel + 1, index, st =>
    if index < st.store.length then (true, st)
    else
      match genPull st.upstream with
      | (.ok s, g) =>
        scFill fuel index
          { st with store := st.store ++ [strip_praw_subscription s], upstream := g }
      | (.stop, g) => (false, { st with upstream := g })
      | (.caught, g) => (false, { st with upstream := g })

/-- Fallback element for a store read guarded by the fill loop's success. -/
def dummyScRec : ScRec :=
  { sname := "", title := "", splitTitle := none, nRows := none, offset := none }

/-- The in-place mutation SubscriptionContent.get performs on the cached
dictionary: wrapped title, its row count plus 1, zero offset. -/
def scUpdate (n_cols : Int) (d : ScRec) : ScRec :=
  { d with
    splitTitle := some (wrap_text d.title n_cols)
    nRows := some ((wrap_text d.title n_cols).length + 1)
    offset := some 0 }

/-- SubscriptionContent.get. -/
def scGet (index : Int) (n_cols : Int) (st : SubscriptionSt) :
    Option ScRec × SubscriptionSt :=
  if index < 0 then (none, st)
  else
    match scFill (index.toNat + 1 - st.store.length) index.toNat st with
    | (false, st2) => (none, st2)
    | (true, st2) =>
      (some (scUpdate n_cols (st2.store.getD index.toNat dummyScRec)),
        { st2 with
          store := st2.store.set index.toNat
            (scUpdate n_cols (st2.store.getD index.toNat dummyScRec)) })

/-- SubscriptionContent.__init__: probe index 0, translating its IndexError
into SubscriptionError. -/
def subscriptionInit (subscriptions : Gen PSubscr) : Except RtvError SubscriptionSt :=
  match scGet 0 70 { store := [], upstream := subscriptions } with
  | (none, _) => .error .subscriptionError
  | (some _, st2) => .ok st2

/-! ### Lemmas about the flattening loop -/

/-- The preorder contribution of a single work-list element. -/
def preOne (p : PComment × Nat) : List (PComment × Nat) :=
  (p.1, p.2) :: specPreorder (specChildren p.1) (p.2 + 1)

theorem specPreorder_eq_flatMap (l : List PComment) (lvl : Nat) :
    specPreorder l lvl = l.flatMap (fun c => preOne (c, lvl)) := by
  induction l with
  | nil => simp [specPreorder]
  | cons c rest ih =>
    rw [specPreorder, List.flatMap_cons, ← ih]
    simp [preOne]

theorem stackSize_cons (c : PComment) (lvl : Nat) (rest : List (PComment × Nat)) :
    stackSize ((c, lvl) :: rest) = csize c + stackSize rest := by
  simp [stackSize]

theorem stackSize_children (rs : PCList) (lvl : Nat) (rest : List (PComment × Nat)) :
    stackSize (rs.toList.map (fun n => (n, lvl)) ++ rest) = csizeL rs + stackSize rest := by
  simp [stackSize, List.map_map, Function.comp_def, sum_map_toList]

/-- On a work list of well-formed nodes the flattening loop cannot raise and
emits exactly the concatenated preorder contributions of its elements
(fuel-generic as long as the fuel covers the work-list size). -/
theorem flattenFuel_wf (fuel : Nat) : ∀ (stack : List (PComment × Nat)),
    stackSize stack ≤ fuel → (∀ p ∈ stack, WF p.1) →
    flattenFuel fuel stack = some (stack.flatMap preOne) := by
  induction fuel with
  | zero =>
    intro stack h _
    match stack with
    | [] => simp [flattenFuel]
    | (c, lvl) :: rest =>
      exfalso
      have := csize_pos c
      rw [stackSize_cons] at h
      omega
  | succ f ih =>
    intro stack h hwf
    match stack with
    | [] => simp [flattenFuel]
    | (c, lvl) :: rest =>
      have hrest : ∀ p ∈ rest, WF p.1 := fun p hp => hwf p (List.mem_cons_of_mem _ hp)
      have hc : WF c := hwf (c, lvl) (List.mem_cons_self _ _)
      rw [stackSize_cons] at h
      have hcpos := csize_pos c
      cases c with
      | more count ff =>
        cases hc with
        | more _ _ hk =>
          have hcz : ¬ (count = 0) := by omega
          have hr : stackSize rest ≤ f := by
            have : csize (PComment.more count ff) = 1 := rfl
            omega
          rw [flattenFuel, if_neg hcz, ih rest hr hrest]
          simp [preOne, specChildren, specPreorder]
      | comment b repl =>
        cases hc with
        | comment _ rs hall =>
          have hr : stackSize (rs.toList.map (fun n => (n, lvl + 1)) ++ rest) ≤ f := by
            rw [stackSize_children]
            have : csize (PComment.comment b (.someF rs)) = 1 + csizeL rs := by
              simp [csize, csizeO]
            omega
          have hwf2 : ∀ p ∈ rs.toList.map (fun n => (n, lvl + 1)) ++ rest, WF p.1 := by
            intro p hp
            rcases List.mem_append.1 hp with hp1 | hp2
            · rcases List.mem_map.1 hp1 with ⟨n, hn, rfl⟩
              exact hall n hn
            · exact hrest p hp2
          rw [flattenFuel, ih _ hr hwf2, List.flatMap_cons, preOne]
          simp only [specChildren]
          rw [specPreorder_eq_flatMap]
          simp [List.flatMap_append, List.flatMap_map]

/-- The flattening loop never keeps a zero-count continuation marker: every
successful run has no `more 0` element in its output. -/
theorem flatten_no_zero_more :
    ∀ (fuel : Nat) (stack out : List (PComment × Nat)),
      flattenFuel fuel stack = some out →
      ∀ (f : PCOpt) (lvl : Nat), (PComment.more 0 f, lvl) ∉ out := by
  intro fuel
  induction fuel with
  | zero =>
    intro stack out h f lvl
    match stack with
    | [] => rw [flattenFuel] at h; injection h with h; subst h; simp
    | _ :: _ => simp [flattenFuel] at h
  | succ fl ih =>
    intro stack out h f lvl
    match stack with
    | [] => rw [flattenFuel] at h; injection h with h; subst h; simp
    | (c, l) :: rest =>
      cases c with
      | more count ff =>
        by_cases hz : count = 0
        · rw [flattenFuel, if_pos hz] at h
          exact ih rest out h f lvl
        · rw [flattenFuel, if_neg hz] at h
          rcases Option.map_eq_some'.1 h with ⟨out2, hout2, rfl⟩
          intro hmem
          rcases List.mem_cons.1 hmem with heq | hmem2
          · simp only [Prod.mk.injEq, PComment.more.injEq] at heq
            exact hz heq.1.1.symm
          · exact ih rest out2 hout2 f lvl hmem2
      | comment b repl =>
        cases repl with
        | noneF =>
          match rest with
          | [] => rw [flattenFuel] at h; exact absurd h (by simp)
          | (next, m) :: rest2 =>
            rw [flattenFuel] at h
            rcases Option.map_eq_some'.1 h with ⟨out2, hout2, rfl⟩
            intro hmem
            rcases List.mem_cons.1 hmem with heq | hmem2
            · simp at heq
            · exact ih _ out2 hout2 f lvl hmem2
        | someF rs =>
          rw [flattenFuel] at h
          rcases Option.map_eq_some'.1 h with ⟨out2, hout2, rfl⟩
          intro hmem
          rcases List.mem_cons.1 hmem with heq | hmem2
          · simp at heq
          · exact ih _ out2 hout2 f lvl hmem2

/-! ### Claim theorems: the flattener (C4, C5) -/

/-- C4.  For every well-formed input forest (every node's reply list set, no
zero-count continuation markers), flatten_comments succeeds and returns the
standard depth-first, left-to-right preorder sequence of the forest, each
node at its parent's depth plus one and the roots at the given root
level. -/
theorem flatten_comments_is_preorder (comments : List PComment) (root_level : Nat)
    (hwf : ∀ c ∈ comments, WF c) :
    flatten_comments comments root_level = some (specPreorder comments root_level) := by
  rw [flatten_comments,
    flattenFuel_wf _ _ le_rfl
      (by intro p hp; rcases List.mem_map.1 hp with ⟨c, hc, rfl⟩; exact hwf c hc),
    specPreorder_eq_flatMap]
  simp [List.flatMap_map]

/-- The scenario forest of C4: three roots, the second with two children. -/
def exC2a : PComment := .comment "c2a" (.someF .nil)

def exC2b : PComment := .comment "c2b" (.someF .nil)

def exForest : List PComment :=
  [.comment "c1" (.someF .nil),
   .comment "c2" (.someF (.cons exC2a (.cons exC2b .nil))),
   .comment "c3" (.someF .nil)]

theorem exForest_wf : ∀ c ∈ exForest, WF c := by
  intro c hc
  have hleaf : ∀ b : String, WF (.comment b (.someF .nil)) := fun b =>
    WF.comment b .nil (by intro x hx; simp [PCList.toList] at hx)
  simp only [exForest, List.mem_cons, List.not_mem_nil, or_false] at hc
  rcases hc with rfl | rfl | rfl
  · exact hleaf "c1"
  · refine WF.comment "c2" _ ?_
    intro x hx
    simp [PCList.toList] at hx
    rcases hx with rfl | rfl
    · exact hleaf "c2a"
    · exact hleaf "c2b"
  · exact hleaf "c3"

/-- Witness for C4 on the scenario forest [c1, c2 (children c2a, c2b), c3];
the resulting order is [c1, c2, c2a, c2b, c3] with depths [0, 0, 1, 1, 0]. -/
theorem flatten_comments_is_preorder_witness :
    flatten_comments exForest 0 = some (specPreorder exForest 0) ∧
      flatten_comments exForest 0 =
        some [(.comment "c1" (.someF .nil), 0),
              (.comment "c2" (.someF (.cons exC2a (.cons exC2b .nil))), 0),
              (exC2a, 1), (exC2b, 1),
              (.comment "c3" (.someF .nil), 0)] :=
  ⟨flatten_comments_is_preorder exForest 0 exForest_wf, by rfl⟩

/-- Counterexample for C5: a comment with an unset reply list that is the
last element of the work list makes the loop pop from an empty list — the
flattener raises IndexError instead of repairing the anomaly, so the claim
that repair succeeds regardless of the anomaly's position is false. -/
theorem flatten_unset_last_raises :
    flatten_comments [PComment.comment "orphan" .noneF] 0 = none := by rfl

/-- C5 as amended.  (1) A zero-count continuation marker is discarded: it
appears nowhere in any successful flattening output.  (2) A node with an
unset reply list adopts the next work-list element as its sole child,
continuing at the adopted child one level deeper — provided such a next
element exists.  (3) When the unset-replies node is the last work-list
element, flattening raises IndexError instead of repairing. -/
theorem flatten_anomaly_behaviour :
    (∀ (fuel : Nat) (stack out : List (PComment × Nat)),
        flattenFuel fuel stack = some out →
        ∀ (f : PCOpt) (lvl : Nat), (PComment.more 0 f, lvl) ∉ out) ∧
    (∀ (fuel : Nat) (b : String) (lvl : Nat) (next : PComment) (m : Nat)
        (rest2 : List (PComment × Nat)),
        flattenFuel (fuel + 1) ((PComment.comment b .noneF, lvl) :: (next, m) :: rest2) =
          (flattenFuel fuel ((next, lvl + 1) :: rest2)).map
            (fun out => (PComment.comment b (.someF (.cons next .nil)), lvl) :: out)) ∧
    (∀ (fuel : Nat) (b : String) (lvl : Nat),
        flattenFuel fuel [(PComment.comment b .noneF, lvl)] = none) := by
  refine ⟨flatten_no_zero_more, fun fuel b lvl next m rest2 => rfl, ?_⟩
  intro fuel b lvl
  match fuel with
  | 0 => rfl
  | _ + 1 => rfl

/-- Witness for the amended C5: a zero-count marker followed by a comment
flattens to the comment alone (the marker is gone), and the lone
unset-replies comment raises. -/
theorem flatten_anomaly_behaviour_witness :
    ((PComment.more 0 .noneF, (0 : Nat)) ∉
        [(PComment.comment "x" (.someF .nil), (0 : Nat))]) ∧
      flattenFuel 3 [(PComment.comment "orphan2" .noneF, 0)] = none :=
  ⟨flatten_anomaly_behaviour.1 2
      [(PComment.more 0 .noneF, 0), (PComment.comment "x" (.someF .nil), 0)]
      [(PComment.comment "x" (.someF .nil), 0)] (by rfl) .noneF 0,
    flatten_anomaly_behaviour.2.2 3 "orphan2" 0⟩

/-! ### Lemmas about the paginated listings -/

theorem genPull_stop_closed {α : Type} {g g2 : Gen α} :
    genPull g = (.stop, g2) → g2.closed = true := by
  rw [genPull]
  split
  · intro h
    injection h with _ h2
    subst h2
    assumption
  · split
    · intro h
      injection h with _ h2
      subst h2
      rfl
    · intro h
      injection h with h1
      cases h1
    · intro h
      injection h with h1
      cases h1

theorem genPull_caught_closed {α : Type} {g g2 : Gen α} :
    genPull g = (.caught, g2) → g2.closed = true := by
  rw [genPull]
  split
  · intro h
    injection h with h1
    cases h1
  · split
    · intro h
      injection h with h1
      cases h1
    · intro h
      injection h with _ h2
      subst h2
      rfl
    · intro h
      injection h with h1
      cases h1

/-- When the fill loop stops early its fuel has not run out (the fuel plus
the store length always equals one past the requested index), so the stop
came from a pull that closed the generator and the store has not reached the
requested index. -/
theorem srFill_false : ∀ (fuel index : Nat) (st st2 : SubredditSt),
    fuel + st.store.length = index + 1 →
    srFill fuel index st = (false, st2) →
    st2.upstream.closed = true ∧ st2.store.length ≤ index := by
  intro fuel
  induction fuel with
  | zero =>
    intro index st st2 hinv h
    rw [srFill] at h
    have : index < st.store.length := by omega
    simp [this] at h
  | succ fl ih =>
    intro index st st2 hinv h
    rw [srFill] at h
    by_cases hlt : index < st.store.length
    · simp [hlt] at h
    · rw [if_neg hlt] at h
      rcases hpull : genPull st.upstream with ⟨res, g⟩
      rw [hpull] at h
      cases res with
      | ok s =>
        refine ih index _ st2 ?_ h
        simp
        omega
      | stop =>
        injection h with _ h2
        subst h2
        exact ⟨genPull_stop_closed hpull, by simp; omega⟩
      | caught =>
        injection h with _ h2
        subst h2
        exact ⟨genPull_caught_closed hpull, by simp; omega⟩

/-- A raising SubredditContent.get with a non-negative index leaves the
generator closed and the store short of the index. -/
theorem srGet_none_closed {k : Nat} {w : Int} {st st2 : SubredditSt}
    (h : srGet (k : Int) w st = (none, st2)) :
    st2.upstream.closed = true ∧ st2.store.length ≤ k := by
  rw [srGet] at h
  have hk : ¬ ((k : Int) < 0) := by omega
  rw [if_neg hk] at h
  simp only [Int.toNat_natCast] at h
  by_cases hlen : st.store.length ≤ k
  · rcases hfill : srFill (k + 1 - st.store.length) k st with ⟨ok, st3⟩
    rw [hfill] at h
    cases ok with
    | false =>
      injection h with _ h2
      subst h2
      exact srFill_false _ k st _ (by omega) hfill
    | true => simp at h
  · exfalso
    have : k + 1 - st.store.length = 0 := by omega
    rw [this, srFill] at h
    have : k < st.store.length := by omega
    simp [this] at h

/-- Once the generator is closed and the store is short of the index,
SubredditContent.get raises without touching anything: the state is returned
exactly as it was (no upstream pull, no store growth). -/
theorem srGet_closed_none {j : Nat} {w : Int} {st : SubredditSt}
    (hclosed : st.upstream.closed = true) (hlen : st.store.length ≤ j) :
    srGet (j : Int) w st = (none, st) := by
  rw [srGet]
  have hj : ¬ ((j : Int) < 0) := by omega
  rw [if_neg hj]
  simp only [Int.toNat_natCast]
  obtain ⟨f, hf⟩ : ∃ f, j + 1 - st.store.length = f + 1 :=
    ⟨j - st.store.length, by omega⟩
  rw [hf, srFill, if_neg (by omega)]
  rw [genPull, if_pos hclosed]

/-- Same facts for the SubscriptionContent fill loop. -/
theorem scFill_false : ∀ (fuel index : Nat) (st st2 : SubscriptionSt),
    fuel + st.store.length = index + 1 →
    scFill fuel index st = (false, st2) →
    st2.upstream.closed = true ∧ st2.store.length ≤ index := by
  intro fuel
  induction fuel with
  | zero =>
    intro index st st2 hinv h
    rw [scFill] at h
    have : index < st.store.length := by omega
    simp [this] at h
  | succ fl ih =>
    intro index st st2 hinv h
    rw [scFill] at h
    by_cases hlt : index < st.store.length
    · simp [hlt] at h
    · rw [if_neg hlt] at h
      rcases hpull : genPull st.upstream with ⟨res, g⟩
      rw [hpull] at h
      cases res with
      | ok s =>
        refine ih index _ st2 ?_ h
        simp
        omega
      | stop =>
        injection h with _ h2
        subst h2
        exact ⟨genPull_stop_closed hpull, by simp; omega⟩
      | caught =>
        injection h with _ h2
        subst h2
        exact ⟨genPull_caught_closed hpull, by simp; omega⟩

/-- A raising SubscriptionContent.get with a non-negative index leaves the
generator closed and the store short of the index. -/
theorem scGet_none_closed {k : Nat} {w : Int} {st st2 : SubscriptionSt}
    (h : scGet (k : Int) w st = (none, st2)) :
    st2.upstream.closed = true ∧ st2.store.length ≤ k := by
  rw [scGet] at h
  have hk : ¬ ((k : Int) < 0) := by omega
  rw [if_neg hk] at h
  simp only [Int.toNat_natCast] at h
  by_cases hlen : st.store.length ≤ k
  · rcases hfill : scFill (k + 1 - st.store.length) k st with ⟨ok, st3⟩
    rw [hfill] at h
    cases ok with
    | false =>
      injection h with _ h2
      subst h2
      exact scFill_false _ k st _ (by omega) hfill
    | true => simp at h
  · exfalso
    have : k + 1 - st.store.length = 0 := by omega
    rw [this, scFill] at h
    have : k < st.store.length := by omega
    simp [this] at h

/-- Closed-generator permanence for SubscriptionContent.get. -/
theorem scGet_closed_none {j : Nat} {w : Int} {st : SubscriptionSt}
    (hclosed : st.upstream.closed = true) (hlen : st.store.length ≤ j) :
    scGet (j : Int) w st = (none, st) := by
  rw [scGet]
  have hj : ¬ ((j : Int) < 0) := by omega
  rw [if_neg hj]
  simp only [Int.toNat_natCast]
  obtain ⟨f, hf⟩ : ∃ f, j + 1 - st.store.length = f + 1 :=
    ⟨j - st.store.length, by omega⟩
  rw [hf, scFill, if_neg (by omega)]
  rw [genPull, if_pos hclosed]

/-! ### Claim theorem: exhaustion permanence (C1) -/

/-- C1.  When a listing get at index k raises because the pull for index k
was exhausted or raised a guard-captured exception (so the store stopped at
length k), every later get at any index j ≥ k and any width raises again and
returns the state untouched: the store length stays k and the upstream
generator's remaining items are not consumed — no further upstream pull is
issued (Python generator semantics of the upstream iterator, modelled from
the spec).  Both SubredditContent.get and SubscriptionContent.get. -/
theorem listing_exhaustion_permanent (k j : Nat) (w w2 w3 w4 : Int)
    (st st1 : SubredditSt) (sc sc1 : SubscriptionSt)
    (hkj : k ≤ j)
    (h1 : srGet (k : Int) w st = (none, st1)) (h2 : st1.store.length = k)
    (h3 : scGet (k : Int) w3 sc = (none, sc1)) (h4 : sc1.store.length = k) :
    srGet (j : Int) w2 st1 = (none, st1) ∧ scGet (j : Int) w4 sc1 = (none, sc1) := by
  rcases srGet_none_closed h1 with ⟨hc1, _⟩
  rcases scGet_none_closed h3 with ⟨hc2, _⟩
  exact ⟨srGet_closed_none hc1 (by omega), scGet_closed_none hc2 (by omega)⟩

/-- A subreddit listing whose first pull raises a captured exception. -/
def exSrSt : SubredditSt :=
  { name := "/r/python", order := none, store := []
    upstream := { closed := false, items := [none, some { title := "late" }] } }

/-- The same listing after the raising get(0). -/
def exSrSt1 : SubredditSt :=
  { name := "/r/python", order := none, store := []
    upstream := { closed := true, items := [some { title := "late" }] } }

/-- A subscription listing with no elements at all. -/
def exScSt : SubscriptionSt :=
  { store := [], upstream := { closed := false, items := [] } }

/-- The same listing after the raising get(0). -/
def exScSt1 : SubscriptionSt :=
  { store := [], upstream := { closed := true, items := [] } }

/-- Witness for C1 at k = 0, j = 2: after the failing get(0) the later
get(2) raises and changes nothing. -/
theorem listing_exhaustion_permanent_witness :
    srGet 2 50 exSrSt1 = (none, exSrSt1) ∧ scGet 2 50 exScSt1 = (none, exScSt1) :=
  listing_exhaustion_permanent 0 2 70 50 70 50 exSrSt exSrSt1 exScSt exScSt1
    (by omega) (by rfl) (by rfl) (by rfl) (by rfl)

/-! ### Claim theorem: the construction probe (C7, corrected) -/

/-- Counterexample for C7: SubmissionContent's constructor performs no
index-0 probe and raises no construction error on an empty source — a
submission with no comments constructs successfully even though get(0) then
raises IndexError. -/
theorem submission_init_no_probe :
    (∃ st, submissionInit
        { title := "t", selftext := "", permalink := "/r/x/1", comments := [] }
        2 8 none = some st ∧ st.commentData = [] ∧ subGet 0 70 st = none) := by
  refine ⟨{ indentSize := 2, maxIndentLevel := 8, name := "/r/x/1", order := none
            submissionData := { title := "t", text := "", splitTitle := none
                                splitText := none, nRows := none, offset := none }
            commentData := [], nextId := 0 }, by rfl, by rfl, by rfl⟩

/-- C7 as amended.  The listing constructors probe index 0 eagerly:
SubredditContent.__init__ raises SubredditError exactly when the probing
get(0) raises, and otherwise returns the probed state; likewise
SubscriptionContent.__init__ with SubscriptionError.  SubmissionContent's
constructor performs no probe: construction succeeds whenever the comment
tree flattens, in particular for an empty comment list, whose constructed
state has no record at index 0. -/
theorem construction_probe_behaviour :
    (∀ (name : String) (g : Gen PSub) (order : Option String) (st2 : SubredditSt),
        srGet 0 70 (srInitialSt name g order) = (none, st2) →
        subredditInit name g order = .error .subredditError) ∧
    (∀ (name : String) (g : Gen PSub) (order : Option String) (r : SRec)
        (st2 : SubredditSt),
        srGet 0 70 (srInitialSt name g order) = (some r, st2) →
        subredditInit name g order = .ok st2) ∧
    (∀ (g : Gen PSubscr) (sc2 : SubscriptionSt),
        scGet 0 70 { store := [], upstream := g } = (none, sc2) →
        subscriptionInit g = .error .subscriptionError) ∧
    (∀ (g : Gen PSubscr) (r : ScRec) (sc2 : SubscriptionSt),
        scGet 0 70 { store := [], upstream := g } = (some r, sc2) →
        subscriptionInit g = .ok sc2) ∧
    (∀ (sub : PSubmission) (i m : Nat) (order : Option String),
        sub.comments = [] →
        ∃ st, submissionInit sub i m order = some st ∧
          st.commentData = [] ∧ subGet 0 70 st = none) := by
  refine ⟨?_, ?_, ?_, ?_, ?_⟩
  · intro name g order st2 h
    rw [subredditInit, h]
  · intro name g order r st2 h
    rw [subredditInit, h]
  · intro g sc2 h
    rw [subscriptionInit, h]
  · intro g r sc2 h
    rw [subscriptionInit, h]
  · intro sub i m order hemp
    refine ⟨{ indentSize := i, maxIndentLevel := m, name := sub.permalink
              order := order
              submissionData := { title := sub.title, text := sub.selftext
                                  splitTitle := none, splitText := none
                                  nRows := none, offset := none }
              commentData := [], nextId := 0 }, ?_, rfl, rfl⟩
    rw [submissionInit, hemp]
    rfl

/-- Witness for the amended C7: a subreddit listing whose first pull raises
is rejected with SubredditError, an empty subscription listing is rejected
with SubscriptionError, and a submission without comments constructs. -/
theorem construction_probe_behaviour_witness :
    subredditInit "/r/python" { closed := false, items := [none] } none =
        .error .subredditError ∧
      subscriptionInit { closed := false, items := [] } =
        .error .subscriptionError ∧
      (∃ st, submissionInit
          { title := "t2", selftext := "s", permalink := "/r/y/2", comments := [] }
          2 8 none = some st ∧ st.commentData = [] ∧ subGet 0 70 st = none) :=
  ⟨construction_probe_behaviour.1 "/r/python" { closed := false, items := [none] }
      none _ (by rfl),
    construction_probe_behaviour.2.2.1 { closed := false, items := [] } _ (by rfl),
    construction_probe_behaviour.2.2.2.2
      { title := "t2", selftext := "s", permalink := "/r/y/2", comments := [] }
      2 8 none (by rfl)⟩

/-! ### Lemmas about get's in-place mutation -/

theorem core_getUpdate (w : Int) (a b : Nat) (r : Rec) :
    (getUpdate w a b r).core = r.core := by
  rcases r with ⟨i, t, l, bo, c, ca, o, sb, nr, off⟩
  cases t <;>
    simp [getUpdate, Rec.withWrap, Rec.core, Rec.rid, Rec.rtype, Rec.level, Rec.body,
      Rec.count, Rec.cache, Rec.splitBody]

theorem level_getUpdate (w : Int) (a b : Nat) (r : Rec) :
    (getUpdate w a b r).level = r.level := by
  rcases r with ⟨i, t, l, bo, c, ca, o, sb, nr, off⟩
  cases t <;> simp [getUpdate, Rec.withWrap, Rec.level, Rec.rtype]

theorem rid_getUpdate (w : Int) (a b : Nat) (r : Rec) :
    (getUpdate w a b r).rid = r.rid := by
  rcases r with ⟨i, t, l, bo, c, ca, o, sb, nr, off⟩
  cases t <;> simp [getUpdate, Rec.withWrap, Rec.rid, Rec.rtype]

theorem rtype_getUpdate (w : Int) (a b : Nat) (r : Rec) :
    (getUpdate w a b r).rtype = r.rtype := by
  rcases r with ⟨i, t, l, bo, c, ca, o, sb, nr, off⟩
  cases t <;> simp [getUpdate, Rec.withWrap, Rec.rtype]

theorem count_getUpdate (w : Int) (a b : Nat) (r : Rec) :
    (getUpdate w a b r).count = r.count := by
  rcases r with ⟨i, t, l, bo, c, ca, o, sb, nr, off⟩
  cases t <;> simp [getUpdate, Rec.withWrap, Rec.count, Rec.rtype]

theorem cache_getUpdate (w : Int) (a b : Nat) (r : Rec) :
    (getUpdate w a b r).cache = r.cache := by
  rcases r with ⟨i, t, l, bo, c, ca, o, sb, nr, off⟩
  cases t <;> simp [getUpdate, Rec.withWrap, Rec.cache, Rec.rtype]

theorem hUpdate_idem (w : Int) (d : HRec) : hUpdate w (hUpdate w d) = hUpdate w d := by
  simp [hUpdate]

theorem getUpdate_idem (w : Int) (a b : Nat) (r : Rec) :
    getUpdate w a b (getUpdate w a b r) = getUpdate w a b r := by
  rcases r with ⟨i, t, l, bo, c, ca, o, sb, nr, off⟩
  cases t <;>
    simp [getUpdate, Rec.withWrap, Rec.level, Rec.rtype, Rec.body, Rec.splitBody]

/-- A successful fill leaves the store long enough for the requested
index. -/
theorem srFill_true : ∀ (fuel index : Nat) (st st2 : SubredditSt),
    srFill fuel index st = (true, st2) → index < st2.store.length := by
  intro fuel
  induction fuel with
  | zero =>
    intro index st st2 h
    rw [srFill] at h
    injection h with h1 h2
    subst h2
    exact of_decide_eq_true h1
  | succ fl ih =>
    intro index st st2 h
    rw [srFill] at h
    by_cases hlt : index < st.store.length
    · rw [if_pos hlt] at h
      injection h with _ h2
      subst h2
      exact hlt
    · rw [if_neg hlt] at h
      rcases hpull : genPull st.upstream with ⟨res, g⟩
      rw [hpull] at h
      cases res with
      | ok s => exact ih index _ st2 h
      | stop => injection h with h1; cases h1
      | caught => injection h with h1; cases h1

/-- A successful fill on a store already long enough is the identity. -/
theorem srFill_of_lt (fuel index : Nat) (st : SubredditSt)
    (h : index < st.store.length) : srFill fuel index st = (true, st) := by
  cases fuel with
  | zero => rw [srFill]; simp [h]
  | succ fl => rw [srFill, if_pos h]

theorem scFill_true : ∀ (fuel index : Nat) (st st2 : SubscriptionSt),
    scFill fuel index st = (true, st2) → index < st2.store.length := by
  intro fuel
  induction fuel with
  | zero =>
    intro index st st2 h
    rw [scFill] at h
    injection h with h1 h2
    subst h2
    exact of_decide_eq_true h1
  | succ fl ih =>
    intro index st st2 h
    rw [scFill] at h
    by_cases hlt : index < st.store.length
    · rw [if_pos hlt] at h
      injection h with _ h2
      subst h2
      exact hlt
    · rw [if_neg hlt] at h
      rcases hpull : genPull st.upstream with ⟨res, g⟩
      rw [hpull] at h
      cases res with
      | ok s => exact ih index _ st2 h
      | stop => injection h with h1; cases h1
      | caught => injection h with h1; cases h1

theorem scFill_of_lt (fuel index : Nat) (st : SubscriptionSt)
    (h : index < st.store.length) : scFill fuel index st = (true, st) := by
  cases fuel with
  | zero => rw [scFill]; simp [h]
  | succ fl => rw [scFill, if_pos h]

/-! ### Claim theorem: get is deterministic at a fixed width (C8) -/

/-- C8.  With no intervening toggle, refresh or other mutation, calling get
twice at the same index and width returns the same record — all field
values including the wrapped-line arrays, n_rows and offset — and the
second call leaves the state exactly where the first left it.  All three
content classes. -/
theorem get_deterministic :
    (∀ (i w : Int) (st st2 : SubCon) (r : GetRes),
        subGet i w st = some (r, st2) → subGet i w st2 = some (r, st2)) ∧
    (∀ (i w : Int) (st st2 : SubredditSt) (r : SRec),
        srGet i w st = (some r, st2) → srGet i w st2 = (some r, st2)) ∧
    (∀ (i w : Int) (st st2 : SubscriptionSt) (r : ScRec),
        scGet i w st = (some r, st2) → scGet i w st2 = (some r, st2)) := by
  refine ⟨?_, ?_, ?_⟩
  · intro i w st st2 r h
    rw [subGet] at h ⊢
    by_cases h1 : i < -1
    · rw [if_pos h1] at h
      cases h
    · rw [if_neg h1] at h ⊢
      by_cases h2 : i = -1
      · rw [if_pos h2] at h ⊢
        injection h with h
        rw [Prod.ext_iff] at h
        obtain ⟨hr, hst⟩ := h
        subst hr
        subst hst
        simp [hUpdate_idem]
      · rw [if_neg h2] at h ⊢
        rcases hn : st.commentData[i.toNat]? with _ | rr
        · rw [hn] at h
          cases h
        · rw [hn] at h
          injection h with h
          rw [Prod.ext_iff] at h
          obtain ⟨hr, hst⟩ := h
          subst hr
          subst hst
          have hlen : i.toNat < st.commentData.length :=
            (List.getElem?_eq_some_iff.1 hn).1
          simp only [List.getElem?_set_self (by simpa using hlen)]
          rw [getUpdate_idem]
          simp [List.set_set]
  · intro i w st st2 r h
    rw [srGet] at h ⊢
    by_cases h1 : i < 0
    · rw [if_pos h1] at h
      cases h
    · rw [if_neg h1] at h ⊢
      rcases hfill : srFill (i.toNat + 1 - st.store.length) i.toNat st with ⟨ok, st3⟩
      rw [hfill] at h
      cases ok with
      | false => cases h
      | true =>
        rw [Prod.ext_iff] at h
        obtain ⟨hr, hst⟩ := h
        injection hr with hr
        subst hr
        subst hst
        have hlen3 : i.toNat < st3.store.length := srFill_true _ _ _ _ hfill
        have hlen2 : i.toNat < (st3.store.set i.toNat
            (srUpdate w (st3.store.getD i.toNat dummySRec))).length := by
          simpa using hlen3
        rw [srFill_of_lt _ _ _ hlen2]
        simp only [List.getD_eq_getElem?_getD, List.getElem?_set_self (by simpa using hlen3)]
        simp [List.set_set, srUpdate]
  · intro i w st st2 r h
    rw [scGet] at h ⊢
    by_cases h1 : i < 0
    · rw [if_pos h1] at h
      cases h
    · rw [if_neg h1] at h ⊢
      rcases hfill : scFill (i.toNat + 1 - st.store.length) i.toNat st with ⟨ok, st3⟩
      rw [hfill] at h
      cases ok with
      | false => cases h
      | true =>
        rw [Prod.ext_iff] at h
        obtain ⟨hr, hst⟩ := h
        injection hr with hr
        subst hr
        subst hst
        have hlen3 : i.toNat < st3.store.length := scFill_true _ _ _ _ hfill
        have hlen2 : i.toNat < (st3.store.set i.toNat
            (scUpdate w (st3.store.getD i.toNat dummyScRec))).length := by
          simpa using hlen3
        rw [scFill_of_lt _ _ _ hlen2]
        simp only [List.getD_eq_getElem?_getD, List.getElem?_set_self (by simpa using hlen3)]
        simp [List.set_set, scUpdate]

/-- A submission content state with a single comment. -/
def exSubCon : SubCon :=
  { indentSize := 2, maxIndentLevel := 8, name := "p", order := none
    submissionData := { title := "t", text := "", splitTitle := none
                        splitText := none, nRows := none, offset := none }
    commentData := [.mk 0 .comment 0 "hi" none [] none none none none]
    nextId := 1 }

/-- The same state after get(0, 70). -/
def exSubCon2 : SubCon :=
  { exSubCon with
    commentData := [.mk 0 .comment 0 "hi" none [] none (some ["hi"]) (some 2) (some 0)] }

/-- A subreddit state with one resolved element. -/
def exSrStore : SubredditSt :=
  { name := "/r/python", order := none
    store := [{ title := "1. a", index := some 0, splitTitle := none
                nRows := none, offset := none }]
    upstream := { closed := false, items := [] } }

/-- The same state after get(0, 50). -/
def exSrStore2 : SubredditSt :=
  { exSrStore with
    store := [{ title := "1. a", index := some 0, splitTitle := some ["1. a"]
                nRows := some 4, offset := some 0 }] }

/-- A subscription state with one resolved element. -/
def exScStore : SubscriptionSt :=
  { store := [{ sname := "/r/b", title := "b", splitTitle := none
                nRows := none, offset := none }]
    upstream := { closed := false, items := [] } }

/-- The same state after get(0, 50). -/
def exScStore2 : SubscriptionSt :=
  { exScStore with
    store := [{ sname := "/r/b", title := "b", splitTitle := some ["b"]
                nRows := some 2, offset := some 0 }] }

/-- Witness for C8: a second get at the same width returns the identical
record and state on all three content classes. -/
theorem get_deterministic_witness :
    subGet 0 70 exSubCon2 =
        some (.entry (.mk 0 .comment 0 "hi" none [] none (some ["hi"]) (some 2) (some 0)),
          exSubCon2) ∧
      srGet 0 50 exSrStore2 =
        (some { title := "1. a", index := some 0, splitTitle := some ["1. a"]
                nRows := some 4, offset := some 0 }, exSrStore2) ∧
      scGet 0 50 exScStore2 =
        (some { sname := "/r/b", title := "b", splitTitle := some ["b"]
                nRows := some 2, offset := some 0 }, exScStore2) :=
  ⟨get_deterministic.1 0 70 exSubCon exSubCon2
      (.entry (.mk 0 .comment 0 "hi" none [] none (some ["hi"]) (some 2) (some 0)))
      (by rfl),
    get_deterministic.2.1 0 50 exSrStore exSrStore2
      { title := "1. a", index := some 0, splitTitle := some ["1. a"]
        nRows := some 4, offset := some 0 } (by rfl),
    get_deterministic.2.2 0 50 exScStore exScStore2
      { sname := "/r/b", title := "b", splitTitle := some ["b"]
        nRows := some 2, offset := some 0 } (by rfl)⟩

/-! ### Lemmas about the iterate loop (C9) -/

/-- SubmissionContent.get at a non-negative index, unfolded. -/
theorem subGet_nat (n : Nat) (w : Int) (st : SubCon) :
    subGet (n : Int) w st =
      match st.commentData[n]? with
      | none => none
      | some r =>
        some (.entry (getUpdate w st.indentSize st.maxIndentLevel r),
          { st with
            commentData := st.commentData.set n
              (getUpdate w st.indentSize st.maxIndentLevel r) }) := by
  rw [subGet, if_neg (by omega), if_neg (by omega), Int.toNat_natCast]

/-- SubredditContent.get on an already-resolved index, unfolded. -/
theorem srGet_lt (i w : Int) (st : SubredditSt) (h0 : 0 ≤ i)
    (h : i.toNat < st.store.length) :
    srGet i w st =
      (some (srUpdate w (st.store.getD i.toNat dummySRec)),
        { st with
          store := st.store.set i.toNat
            (srUpdate w (st.store.getD i.toNat dummySRec)) }) := by
  rw [srGet, if_neg (by omega), srFill_of_lt _ _ _ h]

/-- Backward iteration over a listing from a resolved index k yields exactly
k + 1 records (indices k down to 0) and then stops, never reading a
negative index. -/
theorem srIterate_back : ∀ (k fuel : Nat) (w : Int) (st : SubredditSt),
    k < st.store.length → k + 2 ≤ fuel →
    ∃ l st2, srIterate fuel (k : Int) (-1) w st = some (l, st2) ∧
      l.length = k + 1 ∧ st2.store.length = st.store.length := by
  intro k
  induction k with
  | zero =>
    intro fuel w st hk hf
    obtain ⟨f, rfl⟩ : ∃ f, fuel = (f + 1) + 1 := ⟨fuel - 2, by omega⟩
    rw [srIterate, iterAux, if_neg (by omega),
      srGet_lt ((0 : Nat) : Int) w st (by omega) (by simpa using hk)]
    dsimp only
    rw [show ((0 : Nat) : Int) + (-1) = (-1 : Int) by simp]
    rw [iterAux, if_pos ⟨by omega, by omega⟩]
    exact ⟨_, _, rfl, by simp, by simp⟩
  | succ k ih =>
    intro fuel w st hk hf
    obtain ⟨f, rfl⟩ : ∃ f, fuel = f + 1 := ⟨fuel - 1, by omega⟩
    rw [srIterate, iterAux, if_neg (by omega),
      srGet_lt ((k + 1 : Nat) : Int) w st (by omega) (by simpa using hk)]
    dsimp only
    rw [show ((k + 1 : Nat) : Int) + (-1) = ((k : Nat) : Int) by push_cast; ring]
    obtain ⟨l, st3, hit, hlen, hslen⟩ :=
      ih f w
        { st with
          store := st.store.set ((k + 1 : Nat) : Int).toNat
            (srUpdate w (st.store.getD ((k + 1 : Nat) : Int).toNat dummySRec)) }
        (by simpa using Nat.lt_of_succ_lt hk) (by omega)
    rw [srIterate] at hit
    rw [hit]
    refine ⟨_, _, rfl, by simp [hlen], ?_⟩
    simpa using hslen

/-- SubmissionContent.get in the raising-call shape at a non-negative
index, unfolded. -/
theorem subGetP_nat (n : Nat) (w : Int) (st : SubCon) :
    subGetP (n : Int) w st =
      match st.commentData[n]? with
      | none => (none, st)
      | some r =>
        (some (.entry (getUpdate w st.indentSize st.maxIndentLevel r)),
          { st with
            commentData := st.commentData.set n
              (getUpdate w st.indentSize st.maxIndentLevel r) }) := by
  rw [subGetP, subGet_nat]
  rcases st.commentData[n]? with _ | r <;> rfl

/-- Forward iteration over submission comments from index j yields exactly
the remaining comments and stops at the IndexError past the end. -/
theorem subIterate_fwd : ∀ (fuel j : Nat) (w : Int) (st : SubCon),
    j ≤ st.commentData.length → st.commentData.length - j + 2 ≤ fuel →
    ∃ l st2, subIterate fuel (j : Int) 1 w st = some (l, st2) ∧
      l.length = st.commentData.length - j ∧
      st2.commentData.length = st.commentData.length := by
  intro fuel
  induction fuel with
  | zero =>
    intro j w st hj hf
    omega
  | succ f ih =>
    intro j w st hj hf
    rw [subIterate, iterAux, if_neg (by omega), subGetP_nat]
    by_cases hlt : j < st.commentData.length
    · rw [List.getElem?_eq_getElem hlt]
      dsimp only
      rw [show ((j : Nat) : Int) + 1 = ((j + 1 : Nat) : Int) by push_cast; ring]
      obtain ⟨l, st3, hit, hlen, hslen⟩ :=
        ih (j + 1) w
          { st with
            commentData := st.commentData.set j
              (getUpdate w st.indentSize st.maxIndentLevel st.commentData[j]) }
          (by simpa using hlt) (by dsimp only; simp only [List.length_set]; omega)
      rw [subIterate] at hit
      rw [hit]
      refine ⟨_, _, rfl, ?_, ?_⟩
      · simp at hslen hlen ⊢
        omega
      · simpa using hslen
    · have hj2 : j = st.commentData.length := by omega
      rw [List.getElem?_eq_none (by omega)]
      exact ⟨_, _, rfl, by simp; omega, rfl⟩

/-! ### Lemmas about the toggle collection loop -/

/-- The maximal run of records strictly deeper than `level` at the front of
a record list (the collapsed subtree tail in toggle's collection loop). -/
def segOf (level : Nat) (l : List Rec) : List Rec :=
  l.takeWhile (fun r => decide (level < r.level))

/-- What remains after the strictly-deeper run. -/
def afterOf (level : Nat) (l : List Rec) : List Rec :=
  l.dropWhile (fun r => decide (level < r.level))

theorem segOf_append_afterOf (level : Nat) (l : List Rec) :
    segOf level l ++ afterOf level l = l := by
  simp [segOf, afterOf]

theorem take_succ_set {α : Type} (l : List α) (j : Nat) (x : α) (h : j < l.length) :
    (l.set j x).take (j + 1) = l.take j ++ [x] := by
  rw [List.set_eq_take_append_cons_drop, if_pos h]
  have hlen : (l.take j).length = j := by
    simp [Nat.min_eq_left (Nat.le_of_lt h)]
  rw [show j + 1 = (l.take j).length + 1 by omega, List.take_append]
  simp

/-- The mutation the collection loop leaves after the collapsed run: the
break record (if the loop broke on a shallower record rather than on
exhaustion) has been mutated by its get before the break fired. -/
def afterUpd (w : Int) (a b : Nat) : List Rec → List Rec
  | [] => []
  | r :: bs => getUpdate w a b r :: bs

/-- Exact description of the toggle collection loop on any state whose fuel
covers the remaining comment list: it returns the strictly-deeper run
mutated by get, the run's continuation-count sum, and the state in which
that run (and the break record, when present) has been mutated in place. -/
theorem collectHidden_spec : ∀ (fuel : Nat) (level j : Nat) (w : Int) (st : SubCon),
    st.commentData.length + 1 ≤ fuel + j →
    collectHidden fuel level j w st =
      ((segOf level (st.commentData.drop j)).map
          (getUpdate w st.indentSize st.maxIndentLevel),
        ((segOf level (st.commentData.drop j)).map (fun r => r.count.getD 1)).sum,
        { st with
          commentData :=
            st.commentData.take j ++
              (segOf level (st.commentData.drop j)).map
                (getUpdate w st.indentSize st.maxIndentLevel) ++
              afterUpd w st.indentSize st.maxIndentLevel
                (afterOf level (st.commentData.drop j)) }) := by
  intro fuel
  induction fuel with
  | zero =>
    intro level j w st h
    rw [collectHidden]
    have hd : st.commentData.drop j = [] := List.drop_eq_nil_of_le (by omega)
    have ht : st.commentData.take j = st.commentData :=
      List.take_of_length_le (by omega)
    rw [hd, ht]
    simp [segOf, afterOf, afterUpd]
  | succ f ih =>
    intro level j w st h
    rw [collectHidden, subGet_nat]
    rcases hn : st.commentData[j]? with _ | r
    · have hlen : st.commentData.length ≤ j := by
        by_contra hc
        push_neg at hc
        rw [List.getElem?_eq_getElem hc] at hn
        cases hn
      have hd : st.commentData.drop j = [] := List.drop_eq_nil_of_le hlen
      have ht : st.commentData.take j = st.commentData :=
        List.take_of_length_le hlen
      rw [hd, ht]
      simp [segOf, afterOf, afterUpd]
    · obtain ⟨hjlen, hget⟩ := List.getElem?_eq_some_iff.1 hn
      dsimp only
      simp only [level_getUpdate]
      have hdrop : st.commentData.drop j = r :: st.commentData.drop (j + 1) := by
        rw [List.drop_eq_getElem_cons hjlen, hget]
      by_cases hbr : r.level ≤ level
      · rw [if_pos hbr]
        have hdec : decide (level < r.level) = false := by
          simp
          omega
        have hseg : segOf level (st.commentData.drop j) = [] := by
          rw [segOf, hdrop, List.takeWhile_cons]
          simp [hdec]
        have hafter : afterOf level (st.commentData.drop j) =
            r :: st.commentData.drop (j + 1) := by
          rw [afterOf, hdrop, List.dropWhile_cons]
          simp [hdec]
        rw [hseg, hafter]
        rw [List.set_eq_take_append_cons_drop, if_pos hjlen]
        simp [afterUpd]
      · rw [if_neg hbr]
        have hdec : decide (level < r.level) = true := by
          simp
          omega
        have hseg : segOf level (st.commentData.drop j) =
            r :: segOf level (st.commentData.drop (j + 1)) := by
          rw [segOf, hdrop, List.takeWhile_cons]
          simp [hdec, segOf]
        have hafter : afterOf level (st.commentData.drop j) =
            afterOf level (st.commentData.drop (j + 1)) := by
          rw [afterOf, hdrop, List.dropWhile_cons]
          simp [hdec, afterOf]
        rw [ih level (j + 1) w
          { st with
            commentData := st.commentData.set j
              (getUpdate w st.indentSize st.maxIndentLevel r) }
          (by dsimp only; simp only [List.length_set]; omega)]
        dsimp only
        rw [List.drop_set_of_lt _ _ (Nat.lt_succ_self j)]
        rw [take_succ_set _ _ _ hjlen]
        rw [hseg, hafter]
        simp only [List.map_cons, List.sum_cons, count_getUpdate]
        refine congrArg₂ Prod.mk rfl (congrArg₂ Prod.mk rfl ?_)
        simp [List.append_assoc]

/-- Exact description of toggle on a 'Comment' record at a valid index i:
the record (mutated by the initial width-70 get) and the strictly-deeper
run after it (mutated at the toggle width) are packed in order into a fresh
'HiddenComment' carrying 1 plus the run's continuation-count sum, which is
spliced over the collected segment; the prefix before i is untouched and
the remainder after the segment is kept (its first record mutated by the
loop's final get when the loop broke on it). -/
theorem toggle_comment_spec (w : Int) (st : SubCon) (i : Nat) (r : Rec)
    (hn : st.commentData[i]? = some r) (hc : r.rtype = .comment) :
    toggle (i : Int) w st =
      some
        { st with
          commentData :=
            st.commentData.take i ++
              [Rec.mk st.nextId .hiddenComment r.level "Hidden"
                (some (1 +
                  ((segOf r.level (st.commentData.drop (i + 1))).map
                    (fun x => x.count.getD 1)).sum))
                (getUpdate 70 st.indentSize st.maxIndentLevel r ::
                  (segOf r.level (st.commentData.drop (i + 1))).map
                    (getUpdate w st.indentSize st.maxIndentLevel))
                none none none none] ++
              afterUpd w st.indentSize st.maxIndentLevel
                (afterOf r.level (st.commentData.drop (i + 1)))
          nextId := st.nextId + 1 } := by
  obtain ⟨hjlen, hget⟩ := List.getElem?_eq_some_iff.1 hn
  rw [toggle, subGet_nat, hn]
  dsimp only
  simp only [Int.toNat_natCast, rtype_getUpdate, hc]
  rw [collectHidden_spec _ _ _ _ _
    (by dsimp only; simp only [List.length_set]; omega)]
  dsimp only
  simp only [List.length_set, List.drop_set_of_lt _ _ (by omega : i < i + 1),
    level_getUpdate, take_succ_set _ _ _ hjlen]
  rw [splice]
  congr 1
  refine congrArg₂ (fun a b => SubCon.mk st.indentSize st.maxIndentLevel st.name
    st.order st.submissionData a b) ?_ rfl
  have hlen1 : (st.commentData.take i).length = i := by
    simp [Nat.min_eq_left (Nat.le_of_lt hjlen)]
  simp only [List.append_assoc]
  rw [List.take_left' hlen1]
  congr 2
  rw [show st.commentData.take i ++
      ([getUpdate 70 st.indentSize st.maxIndentLevel r] ++
        ((segOf r.level (st.commentData.drop (i + 1))).map
            (getUpdate w st.indentSize st.maxIndentLevel) ++
          afterUpd w st.indentSize st.maxIndentLevel
            (afterOf r.level (st.commentData.drop (i + 1))))) =
      (st.commentData.take i ++
        ([getUpdate 70 st.indentSize st.maxIndentLevel r] ++
          (segOf r.level (st.commentData.drop (i + 1))).map
            (getUpdate w st.indentSize st.maxIndentLevel))) ++
      afterUpd w st.indentSize st.maxIndentLevel
        (afterOf r.level (st.commentData.drop (i + 1))) from by
    simp [List.append_assoc]]
  rw [List.drop_left' (by simp [hlen1]; try omega)]

/-- Exact description of toggle on a 'HiddenComment' record at a valid
index i: the wrapper is replaced by its buffer, everything else stays. -/
theorem toggle_hidden_spec (w : Int) (st : SubCon) (i : Nat) (r : Rec)
    (hn : st.commentData[i]? = some r) (hc : r.rtype = .hiddenComment) :
    toggle (i : Int) w st =
      some
        { st with
          commentData :=
            st.commentData.take i ++ r.cache ++ st.commentData.drop (i + 1) } := by
  obtain ⟨hjlen, hget⟩ := List.getElem?_eq_some_iff.1 hn
  rw [toggle, subGet_nat, hn]
  dsimp only
  simp only [Int.toNat_natCast, rtype_getUpdate, hc]
  rw [splice, cache_getUpdate]
  have hmin : (st.commentData.take i).length = i := by
    simp [Nat.min_eq_left (Nat.le_of_lt hjlen)]
  have h1 : (st.commentData.set i
      (getUpdate 70 st.indentSize st.maxIndentLevel r)).take i =
      st.commentData.take i := by
    rw [List.set_eq_take_append_cons_drop, if_pos hjlen,
      List.take_append_of_le_length (by omega), List.take_take]
    simp
  have h2 : (st.commentData.set i
      (getUpdate 70 st.indentSize st.maxIndentLevel r)).drop (i + 1) =
      st.commentData.drop (i + 1) :=
    List.drop_set_of_lt _ _ (by omega)
  rw [h1, h2]

/-- The loop's final in-place get keeps identity and payload of the break
record. -/
theorem map_core_afterUpd (w : Int) (a b : Nat) (l : List Rec) :
    (afterUpd w a b l).map Rec.core = l.map Rec.core := by
  cases l with
  | nil => rfl
  | cons x xs => simp [afterUpd, core_getUpdate]

theorem map_rid_afterUpd (w : Int) (a b : Nat) (l : List Rec) :
    (afterUpd w a b l).map Rec.rid = l.map Rec.rid := by
  cases l with
  | nil => rfl
  | cons x xs => simp [afterUpd, rid_getUpdate]

theorem core_eq_core_of_getUpdate (w : Int) (a b : Nat) (r : Rec) :
    Rec.core (getUpdate w a b r) = Rec.core r :=
  core_getUpdate w a b r

/-- Setting a position to the element it already holds changes nothing. -/
theorem set_getElem?_self {α : Type} (l : List α) (i : Nat) (a : α)
    (h : l[i]? = some a) : l.set i a = l := by
  obtain ⟨hlt, hget⟩ := List.getElem?_eq_some_iff.1 h
  apply List.ext_getElem?
  intro n
  by_cases hni : n = i
  · subst hni
    rw [List.getElem?_set_self hlt, h]
  · rw [List.getElem?_set_ne (fun hc => hni hc.symm)]

theorem obj_getUpdate (w : Int) (a b : Nat) (r : Rec) :
    (getUpdate w a b r).obj = r.obj := by
  rcases r with ⟨i, t, l, bo, c, ca, o, sb, nr, off⟩
  cases t <;> simp [getUpdate, Rec.withWrap, Rec.obj, Rec.rtype]

/-- The comment list decomposed around a valid index: prefix, the record,
its strictly-deeper run, the remainder. -/
theorem commentData_split (st : SubCon) (i : Nat) (r : Rec)
    (hn : st.commentData[i]? = some r) :
    st.commentData =
      st.commentData.take i ++
        r :: (segOf r.level (st.commentData.drop (i + 1)) ++
          afterOf r.level (st.commentData.drop (i + 1))) := by
  obtain ⟨hjlen, hget⟩ := List.getElem?_eq_some_iff.1 hn
  conv_lhs => rw [← List.take_append_drop i st.commentData]
  congr 1
  rw [List.drop_eq_getElem_cons hjlen, hget]
  congr 1
  exact (segOf_append_afterOf _ _).symm

/-! ### Claim theorems: toggle (C2, C3, C6, C10) -/

theorem take_around {α : Type} {A : List α} {i : Nat} (x : α) (C : List α)
    (h : A.length = i) : (A ++ [x] ++ C).take i = A := by
  rw [List.append_assoc, List.take_left' h]

theorem drop_around {α : Type} {A : List α} {i : Nat} (x : α) (C : List α)
    (h : A.length = i) : (A ++ [x] ++ C).drop (i + 1) = C := by
  rw [List.drop_left']
  simp [h]

/-- C2.  Toggling a valid 'Comment' index twice restores the flattened
comment sequence exactly: the same dictionaries (identities `rid`), in the
same order, with the same depths, bodies, counts and buffers, and the same
total length — only the width-derived keys that any get rewrites may
differ. -/
theorem toggle_twice_restores (w w2 : Int) (st : SubCon) (i : Nat) (r : Rec)
    (hn : st.commentData[i]? = some r) (hc : r.rtype = .comment) :
    ∃ st1 st2, toggle (i : Int) w st = some st1 ∧
      toggle (i : Int) w2 st1 = some st2 ∧
      st2.commentData.map Rec.core = st.commentData.map Rec.core ∧
      st2.commentData.length = st.commentData.length := by
  obtain ⟨hjlen, hget⟩ := List.getElem?_eq_some_iff.1 hn
  have hmin : (st.commentData.take i).length = i := by
    simp [Nat.min_eq_left (Nat.le_of_lt hjlen)]
  have h1 := toggle_comment_spec w st i r hn hc
  have hn2 :
        (({ st with
          commentData :=
            st.commentData.take i ++
              [Rec.mk st.nextId .hiddenComment r.level "Hidden"
                (some (1 +
                  ((segOf r.level (st.commentData.drop (i + 1))).map
                    (fun x => x.count.getD 1)).sum))
                (getUpdate 70 st.indentSize st.maxIndentLevel r ::
                  (segOf r.level (st.commentData.drop (i + 1))).map
                    (getUpdate w st.indentSize st.maxIndentLevel))
                none none none none] ++
              afterUpd w st.indentSize st.maxIndentLevel
                (afterOf r.level (st.commentData.drop (i + 1)))
          nextId := st.nextId + 1 } : SubCon)).commentData[i]? =
        some (Rec.mk st.nextId .hiddenComment r.level "Hidden"
          (some (1 +
            ((segOf r.level (st.commentData.drop (i + 1))).map
              (fun x => x.count.getD 1)).sum))
          (getUpdate 70 st.indentSize st.maxIndentLevel r ::
            (segOf r.level (st.commentData.drop (i + 1))).map
              (getUpdate w st.indentSize st.maxIndentLevel))
          none none none none) := by
      dsimp only
      rw [List.getElem?_append_left (by simp [hmin]),
        List.getElem?_append_right (Nat.le_of_eq hmin)]
      simp [hmin]
  have h2 := toggle_hidden_spec w2 _ i _ hn2 (by rfl)
  refine ⟨_, _, h1, h2, ?_, ?_⟩
  · dsimp only
    rw [take_around _ _ hmin, drop_around _ _ hmin]
    conv_rhs => rw [commentData_split st i r hn]
    simp only [Rec.cache]
    simp [Function.comp_def, core_getUpdate, map_core_afterUpd]
  · dsimp only
    rw [take_around _ _ hmin, drop_around _ _ hmin]
    have hau : (afterUpd w st.indentSize st.maxIndentLevel
        (afterOf r.level (st.commentData.drop (i + 1)))).length =
        (afterOf r.level (st.commentData.drop (i + 1))).length := by
      have := congrArg List.length
        (map_rid_afterUpd w st.indentSize st.maxIndentLevel
          (afterOf r.level (st.commentData.drop (i + 1))))
      simpa using this
    have hlseg := congrArg List.length (commentData_split st i r hn)
    simp only [List.length_append, List.length_cons, List.length_map, hmin] at hlseg ⊢
    simp only [Rec.cache, List.length_cons, List.length_map, hau]
    omega

end Rtv

namespace Rtv

/-! ### Claim theorem: iterate and the negative direction (C9) -/

/-- C9.  iterate advances by its step and stops without error at the first
out-of-range get.  With a negative step it breaks before ever reading an
index below zero: started at -1 on submission content it yields the empty
sequence without reading the header, and backward iteration over a listing
from resolved index k yields exactly the k + 1 records at k .. 0 and stops.
Forward iteration from 0 over submission content yields exactly one record
per comment and stops at the first out-of-range index. -/
theorem iterate_stops_at_bounds :
    (∀ (fuel : Nat) (w : Int) (st : SubCon),
        subIterate (fuel + 1) (-1) (-1) w st = some ([], st)) ∧
    (∀ (k fuel : Nat) (w : Int) (st : SubredditSt),
        k < st.store.length → k + 2 ≤ fuel →
        ∃ l st2, srIterate fuel (k : Int) (-1) w st = some (l, st2) ∧
          l.length = k + 1) ∧
    (∀ (fuel : Nat) (w : Int) (st : SubCon),
        st.commentData.length + 2 ≤ fuel →
        ∃ l st2, subIterate fuel 0 1 w st = some (l, st2) ∧
          l.length = st.commentData.length) := by
  refine ⟨?_, ?_, ?_⟩
  · intro fuel w st
    rw [subIterate, iterAux, if_pos ⟨by omega, by omega⟩]
  · intro k fuel w st hk hf
    obtain ⟨l, st2, hit, hlen, _⟩ := srIterate_back k fuel w st hk hf
    exact ⟨l, st2, hit, hlen⟩
  · intro fuel w st hf
    obtain ⟨l, st2, hit, hlen, _⟩ :=
      subIterate_fwd fuel 0 w st (by omega) (by omega)
    exact ⟨l, st2, by simpa using hit, by simpa using hlen⟩

/-- Witness for C9: the header is never yielded backward from -1, a
one-element listing iterated backward from 0 yields one record, and forward
iteration over the one-comment submission yields one record. -/
theorem iterate_stops_at_bounds_witness :
    subIterate 3 (-1) (-1) 70 exSubCon = some ([], exSubCon) ∧
      (∃ l st2, srIterate 2 ((0 : Nat) : Int) (-1) 50 exSrStore = some (l, st2) ∧
        l.length = 0 + 1) ∧
      (∃ l st2, subIterate 3 0 1 70 exSubCon = some (l, st2) ∧
        l.length = exSubCon.commentData.length) :=
  ⟨iterate_stops_at_bounds.1 2 70 exSubCon,
    iterate_stops_at_bounds.2.1 0 2 50 exSrStore (by decide) (by omega),
    iterate_stops_at_bounds.2.2 3 70 exSubCon (by decide)⟩


/-- C3.  The hidden buffer built by toggling a 'Comment' at a valid index i
holds exactly the record at i followed by the maximal run of immediately
following records whose depth is strictly greater (identities, depths,
bodies, counts and buffers preserved; only width-derived keys rewritten),
and the wrapper's count is 1 plus, for each collected record, its own
declared count when it carries one and 1 otherwise. -/
theorem toggle_comment_cache (w : Int) (st : SubCon) (i : Nat) (r : Rec)
    (hn : st.commentData[i]? = some r) (hc : r.rtype = .comment) :
    ∃ st1 hid, toggle (i : Int) w st = some st1 ∧
      st1.commentData[i]? = some hid ∧
      hid.rtype = .hiddenComment ∧
      hid.cache.map Rec.core =
        (r :: segOf r.level (st.commentData.drop (i + 1))).map Rec.core ∧
      hid.count = some (1 +
        ((segOf r.level (st.commentData.drop (i + 1))).map
          (fun x => x.count.getD 1)).sum) := by
  obtain ⟨hjlen, hget⟩ := List.getElem?_eq_some_iff.1 hn
  have hmin : (st.commentData.take i).length = i := by
    simp [Nat.min_eq_left (Nat.le_of_lt hjlen)]
  have h1 := toggle_comment_spec w st i r hn hc
  have hn2 :
      (({ st with
        commentData :=
          st.commentData.take i ++
            [Rec.mk st.nextId .hiddenComment r.level "Hidden"
              (some (1 +
                ((segOf r.level (st.commentData.drop (i + 1))).map
                  (fun x => x.count.getD 1)).sum))
              (getUpdate 70 st.indentSize st.maxIndentLevel r ::
                (segOf r.level (st.commentData.drop (i + 1))).map
                  (getUpdate w st.indentSize st.maxIndentLevel))
              none none none none] ++
            afterUpd w st.indentSize st.maxIndentLevel
              (afterOf r.level (st.commentData.drop (i + 1)))
        nextId := st.nextId + 1 } : SubCon)).commentData[i]? =
      some (Rec.mk st.nextId .hiddenComment r.level "Hidden"
        (some (1 +
          ((segOf r.level (st.commentData.drop (i + 1))).map
            (fun x => x.count.getD 1)).sum))
        (getUpdate 70 st.indentSize st.maxIndentLevel r ::
          (segOf r.level (st.commentData.drop (i + 1))).map
            (getUpdate w st.indentSize st.maxIndentLevel))
        none none none none) := by
    dsimp only
    rw [List.getElem?_append_left (by simp [hmin]),
      List.getElem?_append_right (Nat.le_of_eq hmin)]
    simp [hmin]
  refine ⟨_, _, h1, hn2, rfl, ?_, rfl⟩
  simp only [Rec.cache]
  simp [Function.comp_def, core_getUpdate]

/-- C10.  toggle on a 'Comment' or 'HiddenComment' record at a valid index
i mutates only one contiguous segment starting at i: the prefix before i is
untouched (values included), the records after the replaced segment keep
their identities in order (one of them possibly re-wrapped in place by the
loop's final get), and the header data and the instance fields name, order,
indent_size and max_indent_level are unchanged. -/
theorem toggle_frame (w : Int) (st : SubCon) (i : Nat) (r : Rec)
    (hn : st.commentData[i]? = some r)
    (hc : r.rtype = .comment ∨ r.rtype = .hiddenComment) :
    ∃ st1 repl tail n, toggle (i : Int) w st = some st1 ∧
      st1.commentData = st.commentData.take i ++ repl ++ tail ∧
      tail.map Rec.rid = (st.commentData.drop (i + n)).map Rec.rid ∧
      1 ≤ n ∧
      st1.submissionData = st.submissionData ∧
      st1.name = st.name ∧ st1.order = st.order ∧
      st1.indentSize = st.indentSize ∧ st1.maxIndentLevel = st.maxIndentLevel := by
  obtain ⟨hjlen, hget⟩ := List.getElem?_eq_some_iff.1 hn
  rcases hc with hc | hc
  · have h1 := toggle_comment_spec w st i r hn hc
    refine ⟨_, _, _,
      1 + (segOf r.level (st.commentData.drop (i + 1))).length,
      h1, rfl, ?_, by omega, rfl, rfl, rfl, rfl, rfl⟩
    rw [map_rid_afterUpd]
    set A := segOf r.level (st.commentData.drop (i + 1)) with hA
    set B := afterOf r.level (st.commentData.drop (i + 1)) with hB
    have hsa : A ++ B = st.commentData.drop (i + 1) := segOf_append_afterOf _ _
    rw [show i + (1 + A.length) = (i + 1) + A.length by omega, ← List.drop_drop,
      ← hsa, List.drop_left]
  · have h1 := toggle_hidden_spec w st i r hn hc
    exact ⟨_, r.cache, st.commentData.drop (i + 1), 1, h1, rfl, rfl, by omega,
      rfl, rfl, rfl, rfl, rfl⟩

/-- C6.  toggle on a 'MoreComments' marker whose guarded fetch raises an
exception the loader captures leaves the comment sequence intact: no record
is inserted or removed, every dictionary keeps its identity and payload
(the marker is merely re-wrapped in place by the initial get), and the
marker is still at index i. -/
theorem toggle_more_fetch_failure (w : Int) (st : SubCon) (i : Nat) (r : Rec)
    (c : Nat) (hn : st.commentData[i]? = some r) (hm : r.rtype = .moreComments)
    (hobj : r.obj = some (.more c .noneF)) :
    ∃ st1, toggle (i : Int) w st = some st1 ∧
      st1.commentData.map Rec.core = st.commentData.map Rec.core ∧
      st1.commentData[i]? =
        some (getUpdate 70 st.indentSize st.maxIndentLevel r) ∧
      st1.submissionData = st.submissionData ∧
      st1.name = st.name ∧ st1.order = st.order := by
  obtain ⟨hjlen, hget⟩ := List.getElem?_eq_some_iff.1 hn
  rw [toggle, subGet_nat, hn]
  dsimp only
  simp only [Int.toNat_natCast, rtype_getUpdate, hm, obj_getUpdate, hobj]
  refine ⟨_, rfl, ?_, ?_, rfl, rfl, rfl⟩
  · rw [List.map_set, core_getUpdate]
    apply set_getElem?_self
    rw [List.getElem?_map, hn]
    rfl
  · exact List.getElem?_set_self (by simpa using hjlen)



/-- A submission content state with four comments: a depth-0 comment with
two depth-1 children, then another depth-0 comment. -/
def exToggleSt : SubCon :=
  { indentSize := 2, maxIndentLevel := 8, name := "p2", order := none
    submissionData := { title := "t", text := "", splitTitle := none
                        splitText := none, nRows := none, offset := none }
    commentData :=
      [.mk 0 .comment 0 "c2" none [] none none none none,
       .mk 1 .comment 1 "c2a" none [] none none none none,
       .mk 2 .comment 1 "c2b" none [] none none none none,
       .mk 3 .comment 0 "c3" none [] none none none none]
    nextId := 4 }

/-- A submission content state holding one continuation marker whose
guarded fetch raises. -/
def exMoreSt : SubCon :=
  { indentSize := 2, maxIndentLevel := 8, name := "p3", order := none
    submissionData := { title := "t", text := "", splitTitle := none
                        splitText := none, nRows := none, offset := none }
    commentData :=
      [.mk 0 .moreComments 0 "More comments" (some 5) []
        (some (.more 5 .noneF)) none none none]
    nextId := 1 }

/-- Witness for C2 on the scenario state: collapsing and expanding the
subtree of c2 restores the sequence. -/
theorem toggle_twice_restores_witness :
    ∃ st1 st2, toggle ((0 : Nat) : Int) 70 exToggleSt = some st1 ∧
      toggle ((0 : Nat) : Int) 70 st1 = some st2 ∧
      st2.commentData.map Rec.core = exToggleSt.commentData.map Rec.core ∧
      st2.commentData.length = exToggleSt.commentData.length :=
  toggle_twice_restores 70 70 exToggleSt 0
    (.mk 0 .comment 0 "c2" none [] none none none none) (by rfl) (by rfl)

/-- Witness for C3 on the scenario state: the buffer holds c2, c2a, c2b and
the count is 3. -/
theorem toggle_comment_cache_witness :
    ∃ st1 hid, toggle ((0 : Nat) : Int) 70 exToggleSt = some st1 ∧
      st1.commentData[0]? = some hid ∧
      hid.rtype = .hiddenComment ∧
      hid.cache.map Rec.core =
        ((.mk 0 .comment 0 "c2" none [] none none none none) ::
          segOf (Rec.mk 0 .comment 0 "c2" none [] none none none none).level
            (exToggleSt.commentData.drop (0 + 1))).map Rec.core ∧
      hid.count = some (1 +
        ((segOf (Rec.mk 0 .comment 0 "c2" none [] none none none none).level
          (exToggleSt.commentData.drop (0 + 1))).map
            (fun x => x.count.getD 1)).sum) :=
  toggle_comment_cache 70 exToggleSt 0
    (.mk 0 .comment 0 "c2" none [] none none none none) (by rfl) (by rfl)

/-- Witness for C10 on the scenario state. -/
theorem toggle_frame_witness :
    ∃ st1 repl tail n, toggle ((0 : Nat) : Int) 70 exToggleSt = some st1 ∧
      st1.commentData = exToggleSt.commentData.take 0 ++ repl ++ tail ∧
      tail.map Rec.rid = (exToggleSt.commentData.drop (0 + n)).map Rec.rid ∧
      1 ≤ n ∧
      st1.submissionData = exToggleSt.submissionData ∧
      st1.name = exToggleSt.name ∧ st1.order = exToggleSt.order ∧
      st1.indentSize = exToggleSt.indentSize ∧
      st1.maxIndentLevel = exToggleSt.maxIndentLevel :=
  toggle_frame 70 exToggleSt 0
    (.mk 0 .comment 0 "c2" none [] none none none none) (by rfl) (Or.inl (by rfl))

/-- Witness for C6 on the one-marker state: the failed fetch leaves the
sequence intact. -/
theorem toggle_more_fetch_failure_witness :
    ∃ st1, toggle ((0 : Nat) : Int) 70 exMoreSt = some st1 ∧
      st1.commentData.map Rec.core = exMoreSt.commentData.map Rec.core ∧
      st1.commentData[0]? =
        some (getUpdate 70 exMoreSt.indentSize exMoreSt.maxIndentLevel
          (.mk 0 .moreComments 0 "More comments" (some 5) []
            (some (.more 5 .noneF)) none none none)) ∧
      st1.submissionData = exMoreSt.submissionData ∧
      st1.name = exMoreSt.name ∧ st1.order = exMoreSt.order :=
  toggle_more_fetch_failure 70 exMoreSt 0
    (.mk 0 .moreComments 0 "More comments" (some 5) []
      (some (.more 5 .noneF)) none none none) 5 (by rfl) (by rfl) (by rfl)


end Rtv
